import Mathlib

/-
Shallow embedding of nano_embeddings/bge/m3/model.py (the BGE-M3 style
multi-representation embedding model) over rational-valued tensors.

Tensors are nested lists of rationals; shapes are list lengths.  The
floating-point library kernels that the reference calls (square root,
exponential, GELU) are abstracted into a record of scalar functions, so
every statement below is parametric in them.  Indexing that torch would
fault on is totalised with default values; the theorems carry in-range
hypotheses where the behaviour at a fault would matter.  Python attribute
reads that may hit a missing attribute are modelled with Option fields and
an Except-valued accessor, mirroring AttributeError.
-/

/-- Abstract scalar kernels standing for the float routines the reference
calls in the numeric backend: square root (used by layer norm and the
attention scale), the exponential (softmax) and the GELU nonlinearity. -/
structure Prim where
  sqrt : ℚ → ℚ
  exp : ℚ → ℚ
  gelu : ℚ → ℚ

/-- Rank-1 tensor: a vector of rationals. -/
abbrev T1 := List ℚ

/-- Rank-2 tensor. -/
abbrev T2 := List T1

/-- Rank-3 tensor. -/
abbrev T3 := List T2

/-- Rank-4 tensor (batch, heads, positions, head dimension). -/
abbrev T4 := List T3

/-- Dot product of two vectors (zipWith truncates at the shorter one). -/
def dot (a b : T1) : ℚ := (a.zipWith (· * ·) b).sum

/-- Element-wise sum of two vectors. -/
def vecAdd (a b : T1) : T1 := a.zipWith (· + ·) b

/-- Element-wise sum of two matrices. -/
def matAdd (a b : T2) : T2 := a.zipWith vecAdd b

/-- Element-wise sum of two rank-3 tensors (the + of torch on equal shapes). -/
def add3 (a b : T3) : T3 := a.zipWith matAdd b

/-- An nn.Linear module: weight rows are output features (torch keeps W as
(out, in) and computes x Wt + b). -/
structure Linear where
  weight : T2
  bias : T1

/-- Apply a linear module to one vector. -/
def Linear.apply (l : Linear) (x : T1) : T1 :=
  (l.weight.zip l.bias).map (fun wb => dot wb.1 x + wb.2)

/-- Apply a linear module over the rows of a matrix. -/
def linear2 (l : Linear) (x : T2) : T2 := x.map l.apply

/-- Apply a linear module over the last axis of a rank-3 tensor. -/
def linear3 (l : Linear) (x : T3) : T3 := x.map (linear2 l)

/-- An nn.LayerNorm module over the last axis (elementwise affine, bias on). -/
structure LayerNorm where
  weight : T1
  bias : T1
  eps : ℚ

/-- LayerNorm on one vector: subtract the mean, divide by the square root of
the biased variance plus epsilon, then scale and shift. -/
def LayerNorm.apply1 (prim : Prim) (ln : LayerNorm) (x : T1) : T1 :=
  let n : ℚ := (x.length : ℚ)
  let mean := x.sum / n
  let v := (x.map (fun q => (q - mean) ^ 2)).sum / n
  let normed := x.map (fun q => (q - mean) / prim.sqrt (v + ln.eps))
  (normed.zipWith (· * ·) ln.weight).zipWith (· + ·) ln.bias

/-- LayerNorm over the last axis of a matrix. -/
def layerNorm2 (prim : Prim) (ln : LayerNorm) (x : T2) : T2 :=
  x.map (ln.apply1 prim)

/-- LayerNorm over the last axis of a rank-3 tensor. -/
def layerNorm3 (prim : Prim) (ln : LayerNorm) (x : T3) : T3 :=
  x.map (layerNorm2 prim ln)

/-- ReLU on one rational. -/
def relu (q : ℚ) : ℚ := max 0 q

/-- torch.relu over a rank-3 tensor. -/
def relu3 (x : T3) : T3 := x.map (fun m => m.map (fun r => r.map relu))

/-- The GELU kernel over a rank-3 tensor (scalar kernel from Prim). -/
def gelu3 (prim : Prim) (x : T3) : T3 :=
  x.map (fun m => m.map (fun r => r.map prim.gelu))

/-- softmax over one vector: exponentiate then divide by the total. -/
def softmaxRow (prim : Prim) (r : T1) : T1 :=
  let e := r.map prim.exp
  e.map (fun q => q / e.sum)

/-- An nn.Embedding module is its weight table; lookup of one id list, with
rows of the table selected by id (out of range ids are totalised to the
empty row; torch would raise an indexing fault there). -/
def embLookup (table : T2) (ids : List ℕ) : T2 :=
  ids.map (fun i => table.getD i [])

/-- Split a vector into consecutive chunks of size k (the view to
(num_heads, head_dim) on the last axis). -/
def chunkify (k : ℕ) (l : T1) : T2 :=
  (List.range ((l.length + k - 1) / k)).map (fun i => (l.drop (i * k)).take k)

/-- a bt : matrix product of a with the transpose of b. -/
def matmulT (a b : T2) : T2 := a.map (fun ar => b.map (fun br => dot ar br))

/-- Matrix product. -/
def matmul (a b : T2) : T2 := matmulT a b.transpose

/-- Per-entry dropout decision source: for a (batch, position, dimension)
index, whether that entry is dropped in a training-mode pass. -/
abbrev Noise := ℕ → ℕ → ℕ → Bool

/-- nn.Dropout on a rank-3 tensor: identity in eval mode; in training mode
each entry is zeroed where the noise source says so and the kept entries are
rescaled by 1 / (1 - p). -/
def dropout3 (p : ℚ) (train : Bool) (noise : Noise) (x : T3) : T3 :=
  if train then
    x.enum.map (fun bm => bm.2.enum.map (fun tr => tr.2.enum.map (fun dq =>
      if noise bm.1 tr.1 dq.1 then 0 else dq.2 / (1 - p))))
  else x

/-- Modelled from the spec: the configuration record built by config.py
(absent from the sources); it provides vocabulary size, embedding dimension,
position-table size, attention dimension, attention-output dimension, hidden
size, head count, layer count, the three normalization epsilons and the
dropout probability. -/
structure BgeConfig where
  word_size : ℕ
  embed_dim : ℕ
  position_size : ℕ
  attn_dim : ℕ
  attn_output_dim : ℕ
  hidden_size : ℕ
  num_heads : ℕ
  num_of_attn_layers : ℕ
  layer_norm_eps : ℚ
  attn_layer_norm_eps : ℚ
  ffn_layer_norm_eps : ℚ
  dropout_prob : ℚ

/-- The external tokenizer collaborator, reduced to the four reserved
special-token ids the sparse head reads from it. -/
structure Tokenizer where
  cls_token_id : ℕ
  eos_token_id : ℕ
  pad_token_id : ℕ
  unk_token_id : ℕ
deriving DecidableEq

/-- Names of the model attributes that the sparse head reads. -/
inductive AttrName where
  | vocab_size
  | tokenizer
deriving DecidableEq

/-- A fault surfaced by a forward call; reading a missing attribute raises
an AttributeError naming the attribute. -/
inductive Fault where
  | attributeError (n : AttrName)
deriving DecidableEq

/-- Python attribute read: present attributes yield their value, a missing
attribute raises AttributeError. -/
def getattr {α : Type} (o : Option α) (n : AttrName) : Except Fault α :=
  match o with
  | some a => Except.ok a
  | none => Except.error (Fault.attributeError n)

/-- The BgeM3Embedding module: word, position and token-type tables plus the
final LayerNorm. -/
structure BgeM3Embedding where
  word_embedding : T2
  position_embedding : T2
  token_type_embedding : T2
  LayerNorm : LayerNorm

/-- zeros_like on an integer id tensor. -/
def zerosLikeN (x : List (List ℕ)) : List (List ℕ) :=
  x.map (fun r => r.map (fun _ => 0))

/-- BgeM3Embedding.forward: word lookup, position lookup on arange(T)
broadcast over the batch, token-type lookup (all-zero ids when the argument
is absent), sum of the three, then LayerNorm. -/
def BgeM3Embedding.forward (prim : Prim) (e : BgeM3Embedding)
    (input_ids : List (List ℕ)) (token_type_ids : Option (List (List ℕ))) : T3 :=
  let word_embed := input_ids.map (embLookup e.word_embedding)
  let position_ids := List.range (input_ids.getD 0 []).length
  let position_embed := embLookup e.position_embedding position_ids
  let tt_ids :=
    match token_type_ids with
    | none => zerosLikeN input_ids
    | some t => t
  let token_type_embed := tt_ids.map (embLookup e.token_type_embedding)
  let embed := (word_embed.zip token_type_embed).map
    (fun wt => matAdd (matAdd wt.1 position_embed) wt.2)
  layerNorm3 prim e.LayerNorm embed

/-- The MultiHeadSelfAttention module: the four projections, the output
LayerNorm and the dimensions stored at construction. -/
structure MultiHeadSelfAttention where
  embed_dim : ℕ
  attn_dim : ℕ
  attn_output_dim : ℕ
  num_heads : ℕ
  q : Linear
  k : Linear
  v : Linear
  o : Linear
  LayerNorm : LayerNorm

/-- MultiHeadSelfAttention.forward: project to q, k, v; view each row into
num_heads chunks of head_dim and swap the position and head axes; scaled
dot-product scores; softmax over keys; apply to values; swap back,
concatenate the heads, output projection, LayerNorm.  No mask anywhere. -/
def MultiHeadSelfAttention.forward (prim : Prim) (a : MultiHeadSelfAttention)
    (x : T3) : T3 :=
  let head_dim := a.attn_dim / a.num_heads
  let split := fun (t : T3) =>
    t.map (fun m => (m.map (chunkify head_dim)).transpose)
  let q : T4 := split (linear3 a.q x)
  let k : T4 := split (linear3 a.k x)
  let v : T4 := split (linear3 a.v x)
  let attn : T4 := (q.zip k).map (fun qk => (qk.1.zip qk.2).map (fun qkh =>
    (matmulT qkh.1 qkh.2).map (fun row =>
      row.map (fun s => s / prim.sqrt (head_dim : ℚ)))))
  let attn : T4 := attn.map (fun bh => bh.map (fun m => m.map (softmaxRow prim)))
  let outv : T4 := (attn.zip v).map (fun av =>
    (av.1.zip av.2).map (fun ah => matmul ah.1 ah.2))
  let merged : T3 := outv.map (fun bh => bh.transpose.map List.flatten)
  layerNorm3 prim a.LayerNorm (linear3 a.o merged)

/-- The FFN module: the two projections, dropout probability and LayerNorm
(the gelu attribute is the library kernel, taken from Prim). -/
structure FFN where
  attn_output_dim : ℕ
  hidden_size : ℕ
  dropout_prob : ℚ
  fc1 : Linear
  fc2 : Linear
  LayerNorm : LayerNorm

/-- FFN.forward: relu of fc1, then gelu on top, fc2, residual add of the
input, dropout, LayerNorm. -/
def FFN.forward (prim : Prim) (train : Bool) (noise : Noise) (f : FFN)
    (x : T3) : T3 :=
  let out := relu3 (linear3 f.fc1 x)
  let out := gelu3 prim out
  let out := linear3 f.fc2 out
  let out := add3 out x
  let out := dropout3 f.dropout_prob train noise out
  layerNorm3 prim f.LayerNorm out

/-- One encoder layer: attention followed by the feed-forward block. -/
structure BgeAttention where
  attention : MultiHeadSelfAttention
  ffn : FFN

/-- BgeAttention.forward. -/
def BgeAttention.forward (prim : Prim) (train : Bool) (noise : Noise)
    (l : BgeAttention) (x : T3) : T3 :=
  FFN.forward prim train noise l.ffn (l.attention.forward prim x)

/-- The BgeM3 model.  vocab_size and tokenizer are Option fields because the
corresponding Python attributes may be absent: a none models an attribute
that was never assigned. -/
structure BgeM3 where
  config : BgeConfig
  num_of_attn_layers : ℕ
  embedding : BgeM3Embedding
  attentions : List BgeAttention
  sparse_linear : Linear
  colbert_linear : Linear
  vocab_size : Option ℕ
  tokenizer : Option Tokenizer

/-- The loop over self.attentions in BgeM3.forward, one noise source per
layer index. -/
def BgeM3.runLayers (prim : Prim) (train : Bool) (noise : ℕ → Noise) :
    List BgeAttention → ℕ → T3 → T3
  | [], _, x => x
  | l :: ls, i, x =>
      BgeM3.runLayers prim train noise ls (i + 1)
        (l.forward prim train (noise i) x)

/-- The final hidden state of BgeM3.forward: the embedding composer followed
by every attention layer in order. -/
def BgeM3.lastHiddenState (prim : Prim) (train : Bool) (noise : ℕ → Noise)
    (m : BgeM3) (input_ids : List (List ℕ))
    (token_type_ids : Option (List (List ℕ))) : T3 :=
  BgeM3.runLayers prim train noise m.attentions 0
    (m.embedding.forward prim input_ids token_type_ids)

/-- The per-position per-vocabulary weights of the sparse head: relu of the
sparse_linear projection of the hidden state (also the value the
return_embedding = False branch of _sparse_embedding returns). -/
def BgeM3.tokenWeights (m : BgeM3) (hidden_state : T3) : T3 :=
  relu3 (linear3 m.sparse_linear hidden_state)

/-- torch.scatter(zeros(B, T, vocab_size), dim = -1,
index = input_ids.unsqueeze(-1), src = token_weights): the index tensor has
one entry per position, so each (b, t) row receives src[b][t][0] at column
input_ids[b][t] and stays zero elsewhere. -/
def scatterTokens (vocab_size : ℕ) (input_ids : List (List ℕ)) (src : T3) : T3 :=
  (input_ids.zip src).map (fun bp => (bp.1.zip bp.2).map (fun ts =>
    (List.range vocab_size).map (fun v => if v = ts.1 then ts.2.getD 0 0 else 0)))

/-- Element-wise maximum of the rows of a matrix (torch.max over dim 1,
values part). -/
def colMax : T2 → T1
  | [] => []
  | r :: rs => rs.foldl (fun acc row => acc.zipWith max row) r

/-- torch.max(x, dim = 1).values on a rank-3 tensor. -/
def maxOverSeq (x : T3) : T2 := x.map colMax

/-- The advanced-indexing in-place multiply by zero at the listed
vocabulary columns (sparse_embedding[:, unused_tokens] ∗= 0). -/
def zeroTokens (unused : List ℕ) (x : T2) : T2 :=
  x.map (fun row => (List.range row.length).map (fun v =>
    if v ∈ unused then row.getD v 0 * 0 else row.getD v 0))

/-- The unused_tokens list built inside _sparse_embedding from the four
reserved tokenizer ids. -/
def unusedTokens (tk : Tokenizer) : List ℕ :=
  [tk.cls_token_id, tk.eos_token_id, tk.pad_token_id, tk.unk_token_id]

/-- BgeM3._sparse_embedding on the return_embedding = True path taken by
forward: token weights, a zero tensor of width self.vocab_size (an attribute
read that can fault), the scatter, the unused_tokens list read from
self.tokenizer (a second attribute read), max pooling over the sequence
axis, and zeroing of the reserved columns. -/
def BgeM3._sparse_embedding (m : BgeM3) (hidden_state : T3)
    (input_ids : List (List ℕ)) : Except Fault T2 :=
  let token_weights := m.tokenWeights hidden_state
  match getattr m.vocab_size AttrName.vocab_size with
  | Except.error e => Except.error e
  | Except.ok vocab_size =>
    let sparse_embedding := scatterTokens vocab_size input_ids token_weights
    match getattr m.tokenizer AttrName.tokenizer with
    | Except.error e => Except.error e
    | Except.ok tk =>
      let unused_tokens := unusedTokens tk
      let pooled := maxOverSeq sparse_embedding
      Except.ok (zeroTokens unused_tokens pooled)

/-- The broadcast multiply colbert_vecs ∗ mask[:, :, None].float() used by
the colbert head (the mask entries are integers, cast to rationals). -/
def applyMask (x : T3) (mask : List (List ℕ)) : T3 :=
  (x.zip mask).map (fun cm => (cm.1.zip cm.2).map (fun rv =>
    rv.1.map (fun q => q * ((rv.2 : ℚ)))))

/-- BgeM3._colbert_embedding: project every position except position 0 with
colbert_linear, then multiply by mask[:, 1:] broadcast over the embedding
axis, where the mask argument is cast numerically with .float(). -/
def BgeM3._colbert_embedding (m : BgeM3) (last_hidden_state : T3)
    (mask : List (List ℕ)) : T3 :=
  let colbert_vecs := linear3 m.colbert_linear (last_hidden_state.map (List.drop 1))
  applyMask colbert_vecs (mask.map (List.drop 1))

/-- BgeM3.forward: embedding, attention layers, dense pooling at position 0,
the sparse head (which can fault on its attribute reads) and the colbert
head, called with input_ids as its mask argument. -/
def BgeM3.forward (prim : Prim) (train : Bool) (noise : ℕ → Noise) (m : BgeM3)
    (input_ids : List (List ℕ)) (token_type_ids : Option (List (List ℕ))) :
    Except Fault (T2 × T2 × T3) :=
  let out := m.lastHiddenState prim train noise input_ids token_type_ids
  let dense_retrieval_vec := out.map (fun mat => mat.getD 0 [])
  match m._sparse_embedding out input_ids with
  | Except.error e => Except.error e
  | Except.ok sparse_retrieval_vec =>
    let colbert_retrieval_vec := m._colbert_embedding out input_ids
    Except.ok (dense_retrieval_vec, sparse_retrieval_vec, colbert_retrieval_vec)

/-- The learned parameter values that construction draws for one encoder
layer (the random initialisation of the nn modules, taken as given data). -/
structure LayerParams where
  q : Linear
  k : Linear
  v : Linear
  o : Linear
  attn_ln_weight : T1
  attn_ln_bias : T1
  fc1 : Linear
  fc2 : Linear
  ffn_ln_weight : T1
  ffn_ln_bias : T1

/-- The learned parameter values that construction draws for the whole
model: the three embedding tables, the embedding LayerNorm, a parameter
supply per layer index, and the two head projections. -/
structure BgeM3Params where
  word_table : T2
  position_table : T2
  type_table : T2
  emb_ln_weight : T1
  emb_ln_bias : T1
  layers : ℕ → LayerParams
  sparse_linear : Linear
  colbert_linear : Linear

/-- BgeM3.__init__ (together with the __init__ of every submodule): wires
the configuration and the drawn parameters into the module tree.  The
vocab_size and tokenizer attributes are never assigned, hence none. -/
def BgeM3.init (config : BgeConfig) (p : BgeM3Params) : BgeM3 :=
  { config := config
    num_of_attn_layers := config.num_of_attn_layers
    embedding :=
      { word_embedding := p.word_table
        position_embedding := p.position_table
        token_type_embedding := p.type_table
        LayerNorm :=
          { weight := p.emb_ln_weight, bias := p.emb_ln_bias,
            eps := config.layer_norm_eps } }
    attentions := (List.range config.num_of_attn_layers).map (fun i =>
      let lp := p.layers i
      { attention :=
          { embed_dim := config.embed_dim
            attn_dim := config.attn_dim
            attn_output_dim := config.attn_output_dim
            num_heads := config.num_heads
            q := lp.q, k := lp.k, v := lp.v, o := lp.o
            LayerNorm :=
              { weight := lp.attn_ln_weight, bias := lp.attn_ln_bias,
                eps := config.attn_layer_norm_eps } }
        ffn :=
          { attn_output_dim := config.attn_output_dim
            hidden_size := config.hidden_size
            dropout_prob := config.dropout_prob
            fc1 := lp.fc1, fc2 := lp.fc2
            LayerNorm :=
              { weight := lp.ffn_ln_weight, bias := lp.ffn_ln_bias,
                eps := config.ffn_layer_norm_eps } } })
    sparse_linear := p.sparse_linear
    colbert_linear := p.colbert_linear
    vocab_size := none
    tokenizer := none }

/-- Entry of a vector at an index (0 when out of range). -/
def idx1 (x : T1) (d : ℕ) : ℚ := x.getD d 0

/-- Entry of a matrix. -/
def idx2 (x : T2) (t d : ℕ) : ℚ := idx1 (x.getD t []) d

/-- Entry of a rank-3 tensor. -/
def idx3 (x : T3) (b t d : ℕ) : ℚ := idx2 (x.getD b []) t d

/-- Entry of an integer id tensor (0 when out of range). -/
def idn2 (x : List (List ℕ)) (b t : ℕ) : ℕ := (x.getD b []).getD t 0

/-- The list of row lengths of a nested list (its two outer dimensions). -/
def rowLens {α : Type} (x : List (List α)) : List ℕ := x.map List.length

/-- The all-zero tensor of the same shape as a given rank-3 tensor. -/
def zerosLike3 (x : T3) : T3 :=
  x.map (fun m => m.map (fun r => r.map (fun _ => (0 : ℚ))))

theorem getD_map_getD {α β : Type} (f : α → β) (l : List α) (i : ℕ) (d : α) :
    (l.map f).getD i (f d) = f (l.getD i d) := by
  induction l generalizing i with
  | nil => simp [List.getD]
  | cons a as ih => cases i <;> simp [List.getD, ih]

theorem getD_drop_one {α : Type} (l : List α) (t : ℕ) (d : α) :
    (l.drop 1).getD t d = l.getD (t + 1) d := by
  cases l <;> simp [List.getD]

theorem range_map_getD {β : Type} (f : ℕ → β) (n v : ℕ) (d : β) (hv : v < n) :
    ((List.range n).map f).getD v d = f v := by
  rw [List.getD_eq_getElem _ _ (by simpa using hv)]
  simp

theorem mem_zipWith {α β γ : Type} {f : α → β → γ} {a : List α} {b : List β}
    {c : γ} (h : c ∈ List.zipWith f a b) : ∃ x ∈ a, ∃ y ∈ b, c = f x y := by
  induction a generalizing b with
  | nil => simp at h
  | cons x xs ih =>
    cases b with
    | nil => simp at h
    | cons y ys =>
      rcases List.mem_cons.mp h with h1 | h2
      · exact ⟨x, List.mem_cons_self x xs, y, List.mem_cons_self y ys, h1⟩
      · rcases ih h2 with ⟨x2, hx2, y2, hy2, hc⟩
        exact ⟨x2, List.mem_cons_of_mem x hx2, y2, List.mem_cons_of_mem y hy2, hc⟩

theorem getD_nonneg (r : T1) (h : ∀ q ∈ r, 0 ≤ q) (i : ℕ) : 0 ≤ r.getD i 0 := by
  rcases Nat.lt_or_ge i r.length with hlt | hge
  · rw [List.getD_eq_getElem r 0 hlt]
    exact h _ (List.getElem_mem hlt)
  · rw [List.getD_eq_default r 0 hge]

/-- Concrete instantiation of the scalar kernels used by witnesses (the
theorems below never depend on the kernel values). -/
def prim0 : Prim := { sqrt := id, exp := id, gelu := id }

/-- Concrete dropout noise source used by witnesses. -/
def noise0 : ℕ → Noise := fun _ _ _ _ => false

/-- Empty linear module for unused parts of concrete models. -/
def lin0 : Linear := { weight := [], bias := [] }

/-- Trivial LayerNorm for unused parts of concrete models. -/
def ln0 : LayerNorm := { weight := [], bias := [], eps := 1 }

/-- A small concrete configuration with no attention layers. -/
def cfg0 : BgeConfig :=
  { word_size := 2, embed_dim := 1, position_size := 2, attn_dim := 1,
    attn_output_dim := 1, hidden_size := 1, num_heads := 1,
    num_of_attn_layers := 0, layer_norm_eps := 1, attn_layer_norm_eps := 1,
    ffn_layer_norm_eps := 1, dropout_prob := 0 }

/-- Placeholder per-layer parameters (no layer is ever built from them in
the concrete models, which use zero layers). -/
def layerParams0 : LayerParams :=
  { q := lin0, k := lin0, v := lin0, o := lin0, attn_ln_weight := [],
    attn_ln_bias := [], fc1 := lin0, fc2 := lin0, ffn_ln_weight := [],
    ffn_ln_bias := [] }

/-- Concrete drawn parameters for the small configuration. -/
def params0 : BgeM3Params :=
  { word_table := [[1], [2]], position_table := [[0], [0]],
    type_table := [[0]], emb_ln_weight := [1], emb_ln_bias := [0],
    layers := fun _ => layerParams0, sparse_linear := lin0,
    colbert_linear := lin0 }

/-- C1: the spec says forward returns tensors of the documented shapes for
every in-range batch; on the code as written no forward call returns at all:
already on the two-token batch with ids 0 and 1, a freshly constructed model
raises AttributeError for vocab_size inside the sparse head. -/
theorem forward_shapes_claim_fails_concretely :
    BgeM3.forward prim0 false noise0 (BgeM3.init cfg0 params0) [[0, 1]] none
      = Except.error (Fault.attributeError AttrName.vocab_size) := rfl

/-- C2: every forward call on a model built by construction alone raises an
attribute fault (for vocab_size, the first missing attribute the sparse head
reads) and never returns a result, whatever the inputs, parameters, scalar
kernels, mode and noise. -/
theorem forward_always_attribute_fault (prim : Prim) (train : Bool)
    (noise : ℕ → Noise) (config : BgeConfig) (p : BgeM3Params)
    (input_ids : List (List ℕ)) (token_type_ids : Option (List (List ℕ))) :
    BgeM3.forward prim train noise (BgeM3.init config p) input_ids token_type_ids
      = Except.error (Fault.attributeError AttrName.vocab_size) := rfl

theorem scatterRow_idx (V : ℕ) (irow : List ℕ) (srow : T2) (t v : ℕ)
    (ht : t < irow.length) (hv : v < V) :
    idx2 ((irow.zip srow).map (fun ts =>
        (List.range V).map (fun w => if w = ts.1 then ts.2.getD 0 0 else 0))) t v
      = if v = irow.getD t 0 then idx1 (srow.getD t []) 0 else 0 := by
  induction irow generalizing srow t with
  | nil => simp at ht
  | cons i is ih =>
    cases srow with
    | nil => simp [idx2, idx1]
    | cons s ss =>
      cases t with
      | zero =>
        simp only [List.zip_cons_cons, List.map_cons, idx2, idx1,
          List.getD_cons_zero]
        rw [range_map_getD _ _ _ _ hv]
      | succ t =>
        simp only [List.zip_cons_cons, List.map_cons, idx2, idx1,
          List.getD_cons_succ]
        exact ih ss t (Nat.lt_of_succ_lt_succ ht)

theorem getD_getD_zero_of_inner_short (l : T2) (t v : ℕ)
    (h : ∀ r ∈ l, r.length ≤ v) : (l.getD t []).getD v 0 = 0 := by
  rcases Nat.lt_or_ge t l.length with h1 | h1
  · rw [List.getD_eq_getElem _ _ h1]
    exact List.getD_eq_default _ _ (h _ (List.getElem_mem h1))
  · rw [List.getD_eq_default _ _ h1]
    rfl

theorem scatterTokens_idx (V : ℕ) (ids : List (List ℕ)) (src : T3) (b t v : ℕ)
    (hb : b < ids.length) (ht : t < (ids.getD b []).length) :
    idx3 (scatterTokens V ids src) b t v
      = if v < V ∧ v = idn2 ids b t then idx3 src b t 0 else 0 := by
  induction ids generalizing src b with
  | nil => simp at hb
  | cons i is ih =>
    cases src with
    | nil => simp [scatterTokens, idx3, idx2, idx1]
    | cons s ss =>
      cases b with
      | zero =>
        rcases Nat.lt_or_ge v V with hv | hv
        · simp only [scatterTokens, List.zip_cons_cons, List.map_cons, idx3,
            List.getD_cons_zero, idn2]
          rw [scatterRow_idx V i s t v (by simpa using ht) hv]
          simp [hv, idx3, idx2, idx1]
        · simp only [scatterTokens, List.zip_cons_cons, List.map_cons, idx3,
            List.getD_cons_zero, idx2, idx1]
          have hnot : ¬ (v < V ∧ v = idn2 (i :: is) 0 t) := by
            rintro ⟨h1, -⟩; omega
          rw [if_neg hnot]
          refine getD_getD_zero_of_inner_short _ t v ?_
          intro r hr
          rcases List.mem_map.mp hr with ⟨ts, -, hts⟩
          rw [← hts]
          simpa using hv
      | succ b =>
        simp only [scatterTokens, List.zip_cons_cons, List.map_cons, idx3,
          List.getD_cons_succ, idn2]
        have h1 : b < is.length := by simpa using hb
        have h2 : t < (is.getD b []).length := by
          simpa [List.getD_cons_succ] using ht
        simpa [scatterTokens, idx3, idn2] using ih ss b h1 h2

/-- Trivial embedding module for concrete models whose encoder stack is
empty. -/
def emb0 : BgeM3Embedding :=
  { word_embedding := [], position_embedding := [], token_type_embedding := [],
    LayerNorm := ln0 }

/-- Concrete model for the scatter counterexample: its sparse projection is
the identity on two dimensions, so the per-vocabulary weights at one
position are distinguishable. -/
def cm3 : BgeM3 :=
  { config := cfg0, num_of_attn_layers := 0, embedding := emb0,
    attentions := [], sparse_linear := { weight := [[1, 0], [0, 1]], bias := [0, 0] },
    colbert_linear := lin0, vocab_size := none, tokenizer := none }

/-- C3 counterexample: with hidden state [[[2, 3]]] and input id 1 over a
vocabulary of 2, the scatter writes weight 2 (component 0 of the position
weight vector) at vocabulary slot 1, not the slot-1 weight 3 that the claim
says; the two sides differ at the concrete index (0, 0, 1). -/
theorem scatter_own_slot_claim_counterexample :
    idx3 (scatterTokens 2 [[1]] (BgeM3.tokenWeights cm3 [[[2, 3]]])) 0 0 1
      ≠ idx3 (BgeM3.tokenWeights cm3 [[[2, 3]]]) 0 0 1 := by
  have h1 : BgeM3.tokenWeights cm3 [[[2, 3]]] = [[[2, 3]]] := by
    simp [BgeM3.tokenWeights, cm3, relu3, linear3, linear2, Linear.apply, dot,
      relu]
  rw [h1]
  simp [scatterTokens, idx3, idx2, idx1, List.range_succ]

/-- C3 amended: in the scatter step of the sparse head, for every batch b,
in-range position t and vocabulary slot v, the scattered tensor carries, at
the row addressed by the position token id, the FIRST component of that
position's computed weight vector (token_weights[b][t][0]), and is zero
elsewhere. -/
theorem scatter_writes_first_component (m : BgeM3) (hidden_state : T3)
    (V : ℕ) (ids : List (List ℕ)) (b t v : ℕ) (hb : b < ids.length)
    (ht : t < (ids.getD b []).length) (hv : v < V) :
    idx3 (scatterTokens V ids (m.tokenWeights hidden_state)) b t v
      = if v = idn2 ids b t then idx3 (m.tokenWeights hidden_state) b t 0
        else 0 := by
  rw [scatterTokens_idx V ids (m.tokenWeights hidden_state) b t v hb ht]
  simp [hv]

/-- Witness for the amended C3 theorem at the counterexample instance. -/
theorem scatter_writes_first_component_witness :
    (0 < ([[1]] : List (List ℕ)).length
      ∧ 0 < (([[1]] : List (List ℕ)).getD 0 []).length ∧ 1 < 2)
    ∧ idx3 (scatterTokens 2 [[1]] (BgeM3.tokenWeights cm3 [[[2, 3]]])) 0 0 1
        = if 1 = idn2 [[1]] 0 0
          then idx3 (BgeM3.tokenWeights cm3 [[[2, 3]]]) 0 0 0 else 0 :=
  ⟨⟨by decide, by decide, by decide⟩,
    scatter_writes_first_component cm3 [[[2, 3]]] 2 [[1]] 0 0 1
      (by decide) (by decide) (by decide)⟩

theorem relu3_nonneg (x : T3) : ∀ m ∈ relu3 x, ∀ r ∈ m, ∀ q ∈ r, 0 ≤ q := by
  intro m hm r hr q hq
  rcases List.mem_map.mp hm with ⟨m0, -, rfl⟩
  rcases List.mem_map.mp hr with ⟨r0, -, rfl⟩
  rcases List.mem_map.mp hq with ⟨q0, -, rfl⟩
  exact le_max_left 0 q0

theorem scatterTokens_nonneg (V : ℕ) (ids : List (List ℕ)) (src : T3)
    (hsrc : ∀ m ∈ src, ∀ r ∈ m, ∀ q ∈ r, 0 ≤ q) :
    ∀ m ∈ scatterTokens V ids src, ∀ r ∈ m, ∀ q ∈ r, 0 ≤ q := by
  intro m hm r hr q hq
  rcases List.mem_map.mp hm with ⟨bp, hbp, rfl⟩
  rcases List.mem_map.mp hr with ⟨ts, hts, rfl⟩
  rcases List.mem_map.mp hq with ⟨v, -, rfl⟩
  split
  · have hsm : bp.2 ∈ src := (List.of_mem_zip hbp).2
    have hrow : ts.2 ∈ bp.2 := (List.of_mem_zip hts).2
    exact getD_nonneg _ (hsrc _ hsm _ hrow) 0
  · exact le_refl 0

theorem colMax_nonneg_aux (rows : T2) (acc : T1) (hacc : ∀ q ∈ acc, 0 ≤ q)
    (hrows : ∀ r ∈ rows, ∀ q ∈ r, 0 ≤ q) :
    ∀ q ∈ rows.foldl (fun a row => a.zipWith max row) acc, 0 ≤ q := by
  induction rows generalizing acc with
  | nil => exact hacc
  | cons r rs ih =>
    intro q hq
    refine ih (acc.zipWith max r) ?_
      (fun r2 hr2 => hrows r2 (List.mem_cons_of_mem _ hr2)) q hq
    intro p hp
    rcases mem_zipWith hp with ⟨x, hx, y, hy, rfl⟩
    exact le_max_of_le_left (hacc x hx)

theorem colMax_nonneg (rows : T2) (h : ∀ r ∈ rows, ∀ q ∈ r, 0 ≤ q) :
    ∀ q ∈ colMax rows, 0 ≤ q := by
  cases rows with
  | nil => simp [colMax]
  | cons r rs =>
    exact colMax_nonneg_aux rs r (h r (List.mem_cons_self r rs))
      (fun r2 h2 => h r2 (List.mem_cons_of_mem _ h2))

theorem zeroTokens_nonneg (unused : List ℕ) (x : T2)
    (h : ∀ r ∈ x, ∀ q ∈ r, 0 ≤ q) :
    ∀ r ∈ zeroTokens unused x, ∀ q ∈ r, 0 ≤ q := by
  intro r hr q hq
  rcases List.mem_map.mp hr with ⟨row, hrow, rfl⟩
  rcases List.mem_map.mp hq with ⟨v, -, rfl⟩
  split
  · simp
  · exact getD_nonneg _ (h row hrow) v

theorem zeroTokens_at_unused (unused : List ℕ) (x : T2) :
    ∀ r ∈ zeroTokens unused x, ∀ u ∈ unused, r.getD u 0 = 0 := by
  intro r hr u hu
  rcases List.mem_map.mp hr with ⟨row, hrow, rfl⟩
  rcases Nat.lt_or_ge u row.length with h1 | h1
  · rw [range_map_getD _ _ _ _ h1, if_pos hu, mul_zero]
  · rw [List.getD_eq_default _ _ (by simpa using h1)]

/-- C4: whenever the sparse head returns (its two attribute reads succeed),
every entry of the returned (B, V) sparse vector is non-negative, and the
entries at the four reserved special-token columns are exactly zero,
whatever the computed weights were. -/
theorem sparse_output_nonneg_and_reserved_zero (m : BgeM3) (hidden_state : T3)
    (input_ids : List (List ℕ)) (V : ℕ) (tk : Tokenizer) (s : T2)
    (hv : m.vocab_size = some V) (htk : m.tokenizer = some tk)
    (hs : m._sparse_embedding hidden_state input_ids = Except.ok s) :
    (∀ r ∈ s, ∀ q ∈ r, 0 ≤ q)
      ∧ (∀ r ∈ s, ∀ u ∈ unusedTokens tk, r.getD u 0 = 0) := by
  have hs2 : s = zeroTokens (unusedTokens tk)
      (maxOverSeq (scatterTokens V input_ids (m.tokenWeights hidden_state))) := by
    simp [BgeM3._sparse_embedding, getattr, hv, htk] at hs
    exact hs.symm
  subst hs2
  have h0 : ∀ mt ∈ scatterTokens V input_ids (m.tokenWeights hidden_state),
      ∀ r ∈ mt, ∀ q ∈ r, 0 ≤ q :=
    scatterTokens_nonneg V input_ids _ (relu3_nonneg _)
  have h1 : ∀ r ∈ maxOverSeq (scatterTokens V input_ids
      (m.tokenWeights hidden_state)), ∀ q ∈ r, 0 ≤ q := by
    intro r hr
    rcases List.mem_map.mp hr with ⟨mt, hmt, rfl⟩
    exact colMax_nonneg mt (h0 mt hmt)
  exact ⟨zeroTokens_nonneg _ _ h1, zeroTokens_at_unused _ _⟩

/-- Tokenizer value used by witnesses: all four reserved ids are 0. -/
def tk0 : Tokenizer :=
  { cls_token_id := 0, eos_token_id := 0, pad_token_id := 0, unk_token_id := 0 }

/-- Concrete model whose vocab_size and tokenizer attributes have been
assigned (as an external loader could), so the sparse head returns. -/
def cm4 : BgeM3 :=
  { config := cfg0, num_of_attn_layers := 0, embedding := emb0,
    attentions := [],
    sparse_linear := { weight := [[1], [2], [-1]], bias := [0, 0, 0] },
    colbert_linear := lin0, vocab_size := some 3, tokenizer := some tk0 }

/-- Witness for the C4 theorem at a concrete sparse-head run. -/
theorem sparse_output_nonneg_and_reserved_zero_witness :
    (cm4.vocab_size = some 3 ∧ cm4.tokenizer = some tk0
      ∧ BgeM3._sparse_embedding cm4 [[[2]]] [[1]] = Except.ok [[0, 2, 0]])
    ∧ ((∀ r ∈ ([[0, 2, 0]] : T2), ∀ q ∈ r, 0 ≤ q)
      ∧ (∀ r ∈ ([[0, 2, 0]] : T2), ∀ u ∈ unusedTokens tk0, r.getD u 0 = 0)) := by
  have hs : BgeM3._sparse_embedding cm4 [[[2]]] [[1]] = Except.ok [[0, 2, 0]] := by
    simp [BgeM3._sparse_embedding, getattr, cm4, BgeM3.tokenWeights, relu3,
      linear3, linear2, Linear.apply, dot, relu, scatterTokens, maxOverSeq,
      colMax, zeroTokens, unusedTokens, tk0, List.range_succ]
  exact ⟨⟨rfl, rfl, hs⟩,
    sparse_output_nonneg_and_reserved_zero cm4 [[[2]]] [[1]] 3 tk0 [[0, 2, 0]]
      rfl rfl hs⟩

theorem map_mul_getD (r : T1) (c : ℚ) (d : ℕ) :
    (r.map (fun q => q * c)).getD d 0 = r.getD d 0 * c := by
  rcases Nat.lt_or_ge d r.length with h | h
  · rw [List.getD_eq_getElem _ _ (by simpa using h), List.getD_eq_getElem _ _ h]
    simp
  · rw [List.getD_eq_default _ _ (by simpa using h), List.getD_eq_default _ _ h]
    simp

theorem applyMaskRow_idx (xr : T2) (mr : List ℕ) (t d : ℕ) :
    idx2 ((xr.zip mr).map (fun rv => rv.1.map (fun q => q * ((rv.2 : ℚ))))) t d
      = idx2 xr t d * ((mr.getD t 0 : ℚ)) := by
  induction xr generalizing mr t with
  | nil => simp [idx2, idx1]
  | cons r rs ih =>
    cases mr with
    | nil => simp [idx2, idx1]
    | cons a ms =>
      cases t with
      | zero =>
        simp only [List.zip_cons_cons, List.map_cons, idx2, idx1,
          List.getD_cons_zero]
        exact map_mul_getD r ((a : ℚ)) d
      | succ t => simpa [idx2, idx1, List.getD_cons_succ] using ih ms t

theorem applyMask_idx (x : T3) (mask : List (List ℕ)) (b t d : ℕ) :
    idx3 (applyMask x mask) b t d = idx3 x b t d * ((idn2 mask b t : ℚ)) := by
  induction x generalizing mask b with
  | nil => simp [applyMask, idx3, idx2, idx1, idn2]
  | cons m xs ih =>
    cases mask with
    | nil => simp [applyMask, idx3, idx2, idx1, idn2]
    | cons mr ms =>
      cases b with
      | zero => simpa [applyMask, idx3, idn2] using applyMaskRow_idx m mr t d
      | succ b => simpa [applyMask, idx3, idn2, List.getD_cons_succ] using ih ms b

theorem idn2_map_drop (mask : List (List ℕ)) (b t : ℕ) :
    idn2 (mask.map (List.drop 1)) b t = idn2 mask b (t + 1) := by
  have h := getD_map_getD (List.drop 1) mask b []
  simp only [List.drop_nil] at h
  unfold idn2
  rw [h, getD_drop_one]

/-- Claim-side variant of the colbert head (the refinement target the claim
describes): the mask sequence is passed through a boolean cast, so retained
positions are multiplied by 1 when their entry is nonzero and by 0 when it
is zero. -/
def colbertBoolMasked (m : BgeM3) (last_hidden_state : T3)
    (mask : List (List ℕ)) : T3 :=
  let colbert_vecs := linear3 m.colbert_linear (last_hidden_state.map (List.drop 1))
  (colbert_vecs.zip (mask.map (List.drop 1))).map (fun cm =>
    (cm.1.zip cm.2).map (fun rv =>
      rv.1.map (fun q => q * (if rv.2 = 0 then 0 else 1))))

/-- Concrete model for the colbert mask counterexample: an identity
projection on one dimension. -/
def cm5 : BgeM3 :=
  { config := cfg0, num_of_attn_layers := 0, embedding := emb0,
    attentions := [], sparse_linear := lin0,
    colbert_linear := { weight := [[1]], bias := [0] },
    vocab_size := none, tokenizer := none }

/-- C5 counterexample: with projected value 7 at the single retained
position and token id 2 there, the code multiplies by the raw id (giving
14), not by the boolean cast of the id (which would give 7): the head
output differs from the claim-described boolean-masked output. -/
theorem colbert_bool_cast_counterexample :
    BgeM3._colbert_embedding cm5 [[[5], [7]]] [[3, 2]]
      ≠ colbertBoolMasked cm5 [[[5], [7]]] [[3, 2]] := by
  simp [BgeM3._colbert_embedding, colbertBoolMasked, applyMask, cm5, linear3,
    linear2, Linear.apply, dot]

/-- C5 amended: the factor the multi-vector head multiplies into the
projected vector at batch b, retained position t (sequence position t + 1)
and dimension d is the raw token id at that position cast to a float: the
id value itself when nonzero (not 1), and 0 when the id is 0. -/
theorem colbert_mask_scales_by_raw_id (m : BgeM3) (last_hidden_state : T3)
    (mask : List (List ℕ)) (b t d : ℕ) :
    idx3 (m._colbert_embedding last_hidden_state mask) b t d
      = idx3 (linear3 m.colbert_linear (last_hidden_state.map (List.drop 1))) b t d
          * ((idn2 mask b (t + 1) : ℚ)) := by
  unfold BgeM3._colbert_embedding
  rw [applyMask_idx, idn2_map_drop]

theorem rowLens_map_drop {α : Type} (y : List (List α)) :
    rowLens (y.map (List.drop 1)) = (rowLens y).map (fun n => n - 1) := by
  simp [rowLens, List.map_map, Function.comp, List.length_drop]

theorem rowLens_linear3 (l : Linear) (z : T3) :
    rowLens (linear3 l z) = rowLens z := by
  simp [rowLens, linear3, linear2, List.map_map, Function.comp]

theorem applyMaskRow_allzero (m : T2) (mr : List ℕ) (h1 : mr.length = m.length)
    (h0 : ∀ e ∈ mr, e = 0) :
    (m.zip mr).map (fun rv => rv.1.map (fun q => q * ((rv.2 : ℚ))))
      = m.map (fun r => r.map (fun _ => (0 : ℚ))) := by
  induction m generalizing mr with
  | nil => simp
  | cons r rs ih =>
    cases mr with
    | nil => simp at h1
    | cons a ms =>
      have ha : a = 0 := h0 a (List.mem_cons_self a ms)
      subst ha
      have htl := ih ms (by simpa using h1)
        (fun e he => h0 e (List.mem_cons_of_mem _ he))
      simp [htl]

theorem applyMaskRow_allone (m : T2) (mr : List ℕ) (h1 : mr.length = m.length)
    (h0 : ∀ e ∈ mr, e = 1) :
    (m.zip mr).map (fun rv => rv.1.map (fun q => q * ((rv.2 : ℚ)))) = m := by
  induction m generalizing mr with
  | nil => simp
  | cons r rs ih =>
    cases mr with
    | nil => simp at h1
    | cons a ms =>
      have ha : a = 1 := h0 a (List.mem_cons_self a ms)
      subst ha
      have htl := ih ms (by simpa using h1)
        (fun e he => h0 e (List.mem_cons_of_mem _ he))
      simp [htl]

theorem applyMask_allzero (x : T3) (mk : List (List ℕ))
    (hlen : rowLens mk = rowLens x) (h0 : ∀ r ∈ mk, ∀ e ∈ r, e = 0) :
    applyMask x mk = zerosLike3 x := by
  induction x generalizing mk with
  | nil => simp [applyMask, zerosLike3]
  | cons m xs ih =>
    cases mk with
    | nil => simp [rowLens] at hlen
    | cons mr ms =>
      simp only [rowLens, List.map_cons, List.cons.injEq] at hlen
      obtain ⟨h1, h2⟩ := hlen
      simp only [applyMask, zerosLike3, List.zip_cons_cons, List.map_cons,
        List.cons.injEq]
      constructor
      · exact applyMaskRow_allzero m mr h1 (h0 mr (List.mem_cons_self mr ms))
      · simpa [applyMask, zerosLike3, rowLens] using
          ih ms (by simpa [rowLens] using h2)
            (fun r hr => h0 r (List.mem_cons_of_mem _ hr))

theorem applyMask_allone (x : T3) (mk : List (List ℕ))
    (hlen : rowLens mk = rowLens x) (h0 : ∀ r ∈ mk, ∀ e ∈ r, e = 1) :
    applyMask x mk = x := by
  induction x generalizing mk with
  | nil => simp [applyMask]
  | cons m xs ih =>
    cases mk with
    | nil => simp [rowLens] at hlen
    | cons mr ms =>
      simp only [rowLens, List.map_cons, List.cons.injEq] at hlen
      obtain ⟨h1, h2⟩ := hlen
      simp only [applyMask, List.zip_cons_cons, List.map_cons,
        List.cons.injEq]
      constructor
      · exact applyMaskRow_allone m mr h1 (h0 mr (List.mem_cons_self mr ms))
      · simpa [applyMask] using
          ih ms (by simpa [rowLens] using h2)
            (fun r hr => h0 r (List.mem_cons_of_mem _ hr))

/-- C6: on a mask of the same (B, T) shape as the hidden state, an all-zero
(all-false) mask makes the multi-vector head return the all-zero tensor of
the shape of the projected positions 1..T-1, and an all-one (all-true) mask
makes it return exactly the unmasked projected values. -/
theorem colbert_mask_extremes (m : BgeM3) (hidden : T3)
    (mask : List (List ℕ)) (hlen : rowLens mask = rowLens hidden) :
    ((∀ r ∈ mask, ∀ e ∈ r, e = 0) →
      m._colbert_embedding hidden mask
        = zerosLike3 (linear3 m.colbert_linear (hidden.map (List.drop 1))))
    ∧ ((∀ r ∈ mask, ∀ e ∈ r, e = 1) →
      m._colbert_embedding hidden mask
        = linear3 m.colbert_linear (hidden.map (List.drop 1))) := by
  have halign : rowLens (mask.map (List.drop 1))
      = rowLens (linear3 m.colbert_linear (hidden.map (List.drop 1))) := by
    rw [rowLens_linear3, rowLens_map_drop, rowLens_map_drop, hlen]
  constructor
  · intro h0
    unfold BgeM3._colbert_embedding
    refine applyMask_allzero _ _ halign ?_
    intro r hr e he
    rcases List.mem_map.mp hr with ⟨r0, hr0, rfl⟩
    exact h0 r0 hr0 e (List.mem_of_mem_drop he)
  · intro h1
    unfold BgeM3._colbert_embedding
    refine applyMask_allone _ _ halign ?_
    intro r hr e he
    rcases List.mem_map.mp hr with ⟨r0, hr0, rfl⟩
    exact h1 r0 hr0 e (List.mem_of_mem_drop he)

/-- Witness for the C6 theorem at a concrete two-position input. -/
theorem colbert_mask_extremes_witness :
    (rowLens ([[1, 1]] : List (List ℕ)) = rowLens ([[[5], [7]]] : T3))
    ∧ (((∀ r ∈ ([[1, 1]] : List (List ℕ)), ∀ e ∈ r, e = 0) →
        BgeM3._colbert_embedding cm5 [[[5], [7]]] [[1, 1]]
          = zerosLike3 (linear3 cm5.colbert_linear
              (([[[5], [7]]] : T3).map (List.drop 1))))
      ∧ ((∀ r ∈ ([[1, 1]] : List (List ℕ)), ∀ e ∈ r, e = 1) →
        BgeM3._colbert_embedding cm5 [[[5], [7]]] [[1, 1]]
          = linear3 cm5.colbert_linear (([[[5], [7]]] : T3).map (List.drop 1)))) :=
  ⟨by decide, colbert_mask_extremes cm5 [[[5], [7]]] [[1, 1]] (by decide)⟩

/-- C7: whenever forward returns (its attribute reads succeed), the dense
component of its result is exactly the final hidden state at sequence
position 0, with no transform applied after the encoder stack. -/
theorem dense_head_is_position_zero (prim : Prim) (train : Bool)
    (noise : ℕ → Noise) (m : BgeM3) (input_ids : List (List ℕ))
    (token_type_ids : Option (List (List ℕ))) (V : ℕ) (tk : Tokenizer)
    (hv : m.vocab_size = some V) (htk : m.tokenizer = some tk) :
    ∃ sp, BgeM3.forward prim train noise m input_ids token_type_ids
      = Except.ok
          ((m.lastHiddenState prim train noise input_ids token_type_ids).map
            (fun mat => mat.getD 0 []),
           sp,
           m._colbert_embedding
             (m.lastHiddenState prim train noise input_ids token_type_ids)
             input_ids) := by
  refine ⟨zeroTokens (unusedTokens tk) (maxOverSeq (scatterTokens V input_ids
    (m.tokenWeights
      (m.lastHiddenState prim train noise input_ids token_type_ids)))), ?_⟩
  simp [BgeM3.forward, BgeM3._sparse_embedding, getattr, hv, htk]

/-- Witness for the C7 theorem on a concrete model whose attributes are
assigned. -/
theorem dense_head_is_position_zero_witness :
    (cm4.vocab_size = some 3 ∧ cm4.tokenizer = some tk0)
    ∧ ∃ sp, BgeM3.forward prim0 false noise0 cm4 [[1]] none
        = Except.ok
            ((cm4.lastHiddenState prim0 false noise0 [[1]] none).map
              (fun mat => mat.getD 0 []),
             sp,
             cm4._colbert_embedding
               (cm4.lastHiddenState prim0 false noise0 [[1]] none) [[1]]) :=
  ⟨⟨rfl, rfl⟩,
    dense_head_is_position_zero prim0 false noise0 cm4 [[1]] none 3 tk0 rfl rfl⟩

/-- The position-wise transform written as the exact sequence the spec
lists: affine projection O to H, rectifier, the smoother nonlinearity on
top, affine projection H back to O, residual addition of the block input,
dropout, layer normalization (the refinement target of C8). -/
def ffnSpecComposition (prim : Prim) (train : Bool) (noise : Noise) (f : FFN)
    (x : T3) : T3 :=
  layerNorm3 prim f.LayerNorm
    (dropout3 f.dropout_prob train noise
      (add3 (linear3 f.fc2 (gelu3 prim (relu3 (linear3 f.fc1 x)))) x))

/-- C8: the FFN block computes exactly the spec-listed composition, in that
order, and nothing else. -/
theorem ffn_forward_matches_spec_order (prim : Prim) (train : Bool)
    (noise : Noise) (f : FFN) (x : T3) :
    FFN.forward prim train noise f x = ffnSpecComposition prim train noise f x :=
  rfl

theorem ffn_eval_noise_irrelevant (prim : Prim) (f : FFN) (x : T3)
    (n1 n2 : Noise) :
    FFN.forward prim false n1 f x = FFN.forward prim false n2 f x := by
  simp [FFN.forward, dropout3]

theorem bgeAttention_eval_noise_irrelevant (prim : Prim) (l : BgeAttention)
    (x : T3) (n1 n2 : Noise) :
    BgeAttention.forward prim false n1 l x
      = BgeAttention.forward prim false n2 l x := by
  unfold BgeAttention.forward
  exact ffn_eval_noise_irrelevant prim l.ffn _ n1 n2

theorem runLayers_eval_noise_irrelevant (prim : Prim) (n1 n2 : ℕ → Noise)
    (ls : List BgeAttention) : ∀ (i : ℕ) (x : T3),
    BgeM3.runLayers prim false n1 ls i x
      = BgeM3.runLayers prim false n2 ls i x := by
  induction ls with
  | nil => intro i x; rfl
  | cons l ls ih =>
    intro i x
    simp only [BgeM3.runLayers]
    rw [bgeAttention_eval_noise_irrelevant prim l x (n1 i) (n2 i)]
    exact ih (i + 1) _

/-- C9: with dropout disabled (eval mode) and fixed parameters, the result
of forward does not depend on the dropout randomness source at all: two
invocations on identical inputs give identical results, the computation
being a pure function of the inputs and the stored parameters. -/
theorem forward_eval_mode_deterministic (prim : Prim) (m : BgeM3)
    (input_ids : List (List ℕ)) (token_type_ids : Option (List (List ℕ)))
    (noise1 noise2 : ℕ → Noise) :
    BgeM3.forward prim false noise1 m input_ids token_type_ids
      = BgeM3.forward prim false noise2 m input_ids token_type_ids := by
  have h : m.lastHiddenState prim false noise1 input_ids token_type_ids
      = m.lastHiddenState prim false noise2 input_ids token_type_ids := by
    unfold BgeM3.lastHiddenState
    exact runLayers_eval_noise_irrelevant prim noise1 noise2 m.attentions 0 _
  unfold BgeM3.forward
  rw [h]

theorem allzero_row_eq (r i : List ℕ) (h1 : r.length = i.length)
    (h0 : ∀ e ∈ r, e = 0) : r = i.map (fun _ => 0) := by
  induction r generalizing i with
  | nil =>
    cases i with
    | nil => rfl
    | cons b bs => simp at h1
  | cons a as ih =>
    cases i with
    | nil => simp at h1
    | cons b bs =>
      have ha : a = 0 := h0 a (List.mem_cons_self a as)
      simp only [List.map_cons, List.cons.injEq]
      exact ⟨ha, ih bs (by simpa using h1)
        (fun e he => h0 e (List.mem_cons_of_mem _ he))⟩

theorem allzero_sameshape_eq_zerosLikeN (z ids : List (List ℕ))
    (hlen : rowLens z = rowLens ids) (h0 : ∀ r ∈ z, ∀ e ∈ r, e = 0) :
    z = zerosLikeN ids := by
  induction z generalizing ids with
  | nil =>
    cases ids with
    | nil => rfl
    | cons i is => simp [rowLens] at hlen
  | cons r rs ih =>
    cases ids with
    | nil => simp [rowLens] at hlen
    | cons i is =>
      simp only [rowLens, List.map_cons, List.cons.injEq] at hlen
      obtain ⟨h1, h2⟩ := hlen
      simp only [zerosLikeN, List.map_cons, List.cons.injEq]
      constructor
      · exact allzero_row_eq r i h1 (h0 r (List.mem_cons_self r rs))
      · simpa [zerosLikeN, rowLens] using
          ih is (by simpa [rowLens] using h2)
            (fun r2 hr2 => h0 r2 (List.mem_cons_of_mem _ hr2))

/-- C10: calling the embedding composer, and hence the whole forward
operation, with the type-id argument absent gives exactly the same result
as calling it with an explicit all-zero type-id sequence of the same shape
as the token ids. -/
theorem type_ids_absent_defaults_to_zero (prim : Prim) (train : Bool)
    (noise : ℕ → Noise) (m : BgeM3) (input_ids : List (List ℕ))
    (z : List (List ℕ)) (hlen : rowLens z = rowLens input_ids)
    (h0 : ∀ r ∈ z, ∀ e ∈ r, e = 0) :
    m.embedding.forward prim input_ids none
        = m.embedding.forward prim input_ids (some z)
    ∧ BgeM3.forward prim train noise m input_ids none
        = BgeM3.forward prim train noise m input_ids (some z) := by
  have hz : z = zerosLikeN input_ids :=
    allzero_sameshape_eq_zerosLikeN z input_ids hlen h0
  subst hz
  exact ⟨rfl, rfl⟩

/-- Witness for the C10 theorem at a concrete two-token batch. -/
theorem type_ids_absent_defaults_to_zero_witness :
    (rowLens ([[0, 0]] : List (List ℕ)) = rowLens ([[0, 1]] : List (List ℕ))
      ∧ (∀ r ∈ ([[0, 0]] : List (List ℕ)), ∀ e ∈ r, e = 0))
    ∧ (cm4.embedding.forward prim0 [[0, 1]] none
        = cm4.embedding.forward prim0 [[0, 1]] (some [[0, 0]])
      ∧ BgeM3.forward prim0 false noise0 cm4 [[0, 1]] none
        = BgeM3.forward prim0 false noise0 cm4 [[0, 1]] (some [[0, 0]])) :=
  ⟨⟨by decide, by decide⟩,
    type_ids_absent_defaults_to_zero prim0 false noise0 cm4 [[0, 1]] [[0, 0]]
      (by decide) (by decide)⟩
